import Mathlib

/-!
Verification of the American Gut "Package Data" notebook
(`src/ipynb/Package Data.ipynb`).

The notebook is a linear ETL script: it exports QIIME2 artifacts, attaches
taxonomy to biom tables, merges alpha-diversity values into a sample
metadata table, filters biom/PICRUSt tables to per-depth sample-ID lists,
and relocates beta-diversity distance matrices.  This file is a shallow
embedding of the notebook's cells: Python strings become `List Char`,
pandas frames and biom tables become explicit structures, the file system
becomes an association list from paths to file data, and a cell that can
raise becomes an `Except`-valued function.  Every definition is translated
from the notebook source, cell by cell.
-/

namespace AGPackage

/-- Python strings are modelled as lists of characters. -/
abbrev Str := List Char

/-- The Python exceptions the modelled cells can raise. -/
inductive PyErr where
  | nameError (name : Str)
  | fileNotFound (path : Str)
  | indexError
  | typeError
  | valueError
  | osError (path : Str)
  deriving DecidableEq, Repr

/-- First-match association-list lookup (Python `dict` access and
`pandas`/`biom` lookups are modelled with it). -/
def alookup (k : Str) (l : List (Str × α)) : Option α :=
  (l.find? (fun p => decide (p.1 = k))).map (fun p => p.2)

theorem alookup_nil (k : Str) : alookup k ([] : List (Str × α)) = none := rfl

theorem alookup_cons (k : Str) (p : Str × α) (l : List (Str × α)) :
    alookup k (p :: l) = if p.1 = k then some p.2 else alookup k l := by
  by_cases h : p.1 = k <;> simp [alookup, List.find?, h]

/-! ### Cell 8: the taxonomy lookup builder

```python
raw_t = load_table('./03.packaged/1250/deblur_125nt_no_blooms.biom')
taxa_lookup = {id_: {'taxonomy': raw_t.metadata(id_, axis='observation')['taxonomy']}
               for id_ in raw_t.ids(axis='observation')}
```

On a fresh kernel the cells that run before this one are the import cell
(`import os`, `import shutil`, `import biom`, `import h5py`,
`import numpy as np`, `import pandas as pd`), the depth/metric constants
cell, and the directory-creation loop (whose loop variables `depth` and
`dir_path` leak into the module scope).  None of them bind the bare name
`load_table`; only the module name `biom` is bound.  Evaluating the first
statement of cell 8 therefore needs the name `load_table` from the
environment, and raises `NameError` when it is absent, before
`taxa_lookup` is ever constructed. -/

/-- Names bound in the notebook's global namespace after the cells that
precede cell 8 have run on a fresh kernel. -/
def freshEnvBeforeCell8 : List Str :=
  ["os".toList, "shutil".toList, "biom".toList, "h5py".toList,
   "np".toList, "pd".toList,
   "depths".toList, "alpha_metrics".toList,
   "depth".toList, "dir_path".toList]

/-- Evaluation of cell 8 over an environment of bound names: the first
statement calls the bare name `load_table`, so the cell binds
`raw_t` and `taxa_lookup` when that name is bound, and raises a
`NameError` otherwise. -/
def cell8 (env : List Str) : Except PyErr (List Str) :=
  if "load_table".toList ∈ env then
    .ok (env ++ ["raw_t".toList, "taxa_lookup".toList])
  else
    .error (.nameError "load_table".toList)

/-- Claim C10: on a fresh execution the taxonomy-lookup cell fails before
constructing the feature-ID-to-taxonomy mapping, because the bare name
`load_table` is never imported or defined (only `import biom` is present),
so evaluating the cell raises an unbound-name error. -/
theorem C10_cell8_raises_NameError :
    cell8 freshEnvBeforeCell8 = .error (.nameError "load_table".toList) ∧
      "load_table".toList ∉ freshEnvBeforeCell8 := by
  refine ⟨?_, by decide⟩
  unfold cell8
  rw [if_neg (show "load_table".toList ∉ freshEnvBeforeCell8 from by decide)]

/-! ### Cells 19-21: PICRUSt list-metadata (de)serialization

```python
from biom.table import vlen_list_of_str_formatter
from json import dumps, loads

def picrust_parser(*args):
    new_value = []
    for arg in args:
         new_value.append(loads(arg[0]))
    return new_value if new_value else None

def picrust_formatter(*args):
    return vlen_list_of_str_formatter(*list_of_list_of_str_formatter(*args))

def list_of_list_of_str_formatter(grp, header, md, compression):
    new_md = [{header: np.atleast_1d(np.asarray(dumps(m[header])))} for m in md]
    return (grp, header, new_md, compression)
```

The JSON subset that actually flows through these functions is
`json.dumps` / `json.loads` applied to lists of strings.  `dumps` renders
`["a", "b"]` with the default `", "` separator, escaping `"` and `\` inside
string bodies (faithful to `json.dumps` for printable-ASCII characters,
which need no further escaping).  `loads` is modelled by a parser of
exactly that grammar. -/

/-- JSON escaping of one character of a string body: `"` and `\` receive a
backslash, every other (printable) character stands for itself. -/
def escChar (c : Char) : List Char :=
  if c = '\"' ∨ c = '\\' then ['\\', c] else [c]

/-- JSON encoding of a string body (no surrounding quotes). -/
def encStrBody (s : Str) : Str := s.flatMap escChar

/-- JSON string literal: quoted, escaped body. -/
def encStrLit (s : Str) : Str := '\"' :: encStrBody s ++ ['\"']

/-- The comma-joined element list of `json.dumps` (default separator
`", "`). -/
def dumpsElems : List Str → Str
  | [] => []
  | [s] => encStrLit s
  | s :: rest => encStrLit s ++ ',' :: ' ' :: dumpsElems rest

/-- `json.dumps` on a list of strings. -/
def dumps (l : List Str) : Str := '[' :: dumpsElems l ++ [']']

/-- String-body parser: consumes characters until an unescaped closing
quote, returning the decoded body and the rest of the input.  `esc = true`
means the previous character was a backslash. -/
def psb : Bool → Str → Option (Str × Str)
  | _, [] => none
  | esc, c :: rest =>
    if esc then (psb false rest).map (fun p => (c :: p.1, p.2))
    else if c = '\"' then some ([], rest)
    else if c = '\\' then psb true rest
    else (psb false rest).map (fun p => (c :: p.1, p.2))

/-- Parser for a JSON string literal. -/
def parseStrLit : Str → Option (Str × Str)
  | [] => none
  | c :: rest => if c = '\"' then psb false rest else none

/-- Parser for the tail of a JSON string list: either the closing `]` at
end of input, or `", "` followed by a string literal and a further tail.
`fuel` bounds the recursion by the input length. -/
def parseTailF : Nat → Str → Option (List Str)
  | _, [] => none
  | 0, _ :: _ => none
  | fuel + 1, c :: rest =>
    if c = ']' then (if rest = [] then some [] else none)
    else if c = ',' then
      match rest with
      | [] => none
      | d :: rest2 =>
        if d = ' ' then
          match parseStrLit rest2 with
          | some sr =>
            match parseTailF fuel sr.2 with
            | some l => some (sr.1 :: l)
            | none => none
          | none => none
        else none
    else none

/-- `json.loads` on the string-list JSON subset produced by `dumps`. -/
def loads (cs : Str) : Option (List Str) :=
  match cs with
  | [] => none
  | c :: rest =>
    if c = '[' then
      if rest = [']'] then some []
      else
        match parseStrLit rest with
        | some sr =>
          match parseTailF sr.2.length sr.2 with
          | some l => some (sr.1 :: l)
          | none => none
        | none => none
    else none

theorem psb_encStrBody (s : Str) (rest : Str) :
    psb false (encStrBody s ++ '\"' :: rest) = some (s, rest) := by
  induction s with
  | nil => simp [encStrBody, psb]
  | cons c s ih =>
    by_cases hc : c = '\"' ∨ c = '\\'
    · have h1 : ('\\' : Char) ≠ '\"' := by decide
      simp only [encStrBody, List.flatMap_cons, escChar, if_pos hc, List.cons_append,
        List.append_assoc]
      simp only [encStrBody] at ih
      simp [psb, h1, ih]
    · push_neg at hc
      simp only [encStrBody, List.flatMap_cons, escChar, if_neg (by tauto), List.cons_append]
      simp only [encStrBody] at ih
      simp [psb, hc.1, hc.2, ih]

theorem parseStrLit_encStrLit (s : Str) (rest : Str) :
    parseStrLit (encStrLit s ++ rest) = some (s, rest) := by
  simp [encStrLit, parseStrLit, List.append_assoc, psb_encStrBody]

/-- The serialized form of the elements after the first one, ending with
the closing bracket. -/
def dumpsTail : List Str → Str
  | [] => [']']
  | s :: rest => ',' :: ' ' :: (encStrLit s ++ dumpsTail rest)

theorem dumpsElems_append_close (l : List Str) :
    dumpsElems l ++ [']'] =
      (match l with
       | [] => [']']
       | s :: rest => encStrLit s ++ dumpsTail rest) := by
  induction l with
  | nil => rfl
  | cons s rest ih =>
    cases rest with
    | nil => simp [dumpsElems, dumpsTail]
    | cons t r =>
      simp only [dumpsElems] at ih ⊢
      simp [dumpsTail, ← ih, List.append_assoc]

theorem parseTailF_dumpsTail (l : List Str) :
    ∀ fuel, (dumpsTail l).length ≤ fuel →
      parseTailF fuel (dumpsTail l) = some l := by
  induction l with
  | nil =>
    intro fuel hf
    match fuel, hf with
    | fuel + 1, _ => simp [dumpsTail, parseTailF]
  | cons s rest ih =>
    intro fuel hf
    have hlen : (dumpsTail (s :: rest)).length =
        2 + (encStrLit s).length + (dumpsTail rest).length := by
      simp [dumpsTail]; omega
    match fuel, hf with
    | fuel + 1, hf =>
      have h1 : (',' : Char) ≠ ']' := by decide
      simp only [dumpsTail, parseTailF, if_neg h1, if_pos rfl, if_pos rfl,
        parseStrLit_encStrLit]
      rw [ih fuel (by rw [hlen] at hf; omega)]
      simp

theorem loads_dumps (l : List Str) : loads (dumps l) = some l := by
  cases l with
  | nil => rfl
  | cons s rest =>
    have hform : dumps (s :: rest) = '[' :: (encStrLit s ++ dumpsTail rest) := by
      simp only [dumps]
      rw [show ('[' : Char) :: dumpsElems (s :: rest) ++ [']'] =
            '[' :: (dumpsElems (s :: rest) ++ [']']) from rfl]
      rw [dumpsElems_append_close]
    rw [hform]
    have hne : encStrLit s ++ dumpsTail rest ≠ [']'] := by
      simp only [encStrLit, List.cons_append]
      intro h
      have := List.head_eq_of_cons_eq h
      exact absurd this (by decide)
    simp only [loads, if_pos rfl, if_neg hne, parseStrLit_encStrLit]
    rw [parseTailF_dumpsTail rest _ le_rfl]
    simp

/-- Model of the PICRUSt metadata transform in
`list_of_list_of_str_formatter`: each entry's list value becomes the
single-element string array `[dumps(value)]`
(`np.atleast_1d(np.asarray(dumps(m[header])))`). -/
def list_of_list_of_str_formatter (md : List (List Str)) : List (List Str) :=
  md.map (fun v => [dumps v])

/-- Modelled from the spec: biom's external `vlen_list_of_str_formatter`
("defer to the external vlen-string formatter for binary layout") writes
each entry's string array into HDF5 verbatim, so as a value transform it
is the identity. -/
def vlen_list_of_str_formatter (md : List (List Str)) : List (List Str) := md

/-- `picrust_formatter`: the composition of the two formatters. -/
def picrust_formatter (md : List (List Str)) : List (List Str) :=
  vlen_list_of_str_formatter (list_of_list_of_str_formatter md)

/-- The loop body of `picrust_parser`: walk the arguments, appending
`loads(arg[0])` for each; `arg[0]` of an empty array raises `IndexError`,
and a malformed JSON value raises from `loads`. -/
def picrust_parse_loop (acc : List (List Str)) :
    List (List Str) → Except PyErr (List (List Str))
  | [] => .ok acc
  | arg :: rest =>
    match arg with
    | [] => .error .indexError
    | a0 :: _ =>
      match loads a0 with
      | some v => picrust_parse_loop (acc ++ [v]) rest
      | none => .error .valueError

/-- Model of `picrust_parser(*args)`: JSON-decode each argument's first
element; `return new_value if new_value else None` yields `None` when the
accumulated list is empty. -/
def picrust_parse (args : List (List Str)) : Except PyErr (Option (List (List Str))) :=
  match picrust_parse_loop [] args with
  | .ok new_value => .ok (if new_value.isEmpty then none else some new_value)
  | .error e => .error e

/-- The decoding relation between a stored argument and its decoded
value: the argument is nonempty and its first element JSON-decodes to the
value. -/
def DecodesTo (arg : List Str) (v : List Str) : Prop :=
  ∃ a0 t, arg = a0 :: t ∧ loads a0 = some v

theorem picrust_parse_loop_spec (args vs : List (List Str))
    (h : List.Forall₂ DecodesTo args vs) :
    ∀ acc, picrust_parse_loop acc args = .ok (acc ++ vs) := by
  induction h with
  | nil => intro acc; simp [picrust_parse_loop]
  | cons hd tl ih =>
    intro acc
    obtain ⟨a0, t, rfl, hload⟩ := hd
    simp [picrust_parse_loop, hload, ih]

theorem forall₂_decodesTo_formatter (md : List (List Str)) :
    List.Forall₂ DecodesTo (picrust_formatter md) md := by
  induction md with
  | nil => exact List.Forall₂.nil
  | cons v md ih =>
    exact List.Forall₂.cons ⟨dumps v, [], rfl, loads_dumps v⟩ ih

/-- Printable-ASCII characters: the regime in which the `dumps` model is
character-for-character faithful to `json.dumps` (no `\uXXXX` or control
escapes arise). -/
def PrintableAscii (c : Char) : Prop := 32 ≤ c.toNat ∧ c.toNat ≤ 126

instance (c : Char) : Decidable (PrintableAscii c) := by
  unfold PrintableAscii; infer_instance

/-- Claim C5: for every list-of-strings metadata value (printable ASCII),
serializing with `picrust_formatter` (JSON-encode each list into a single
string handed to the vlen-string formatter) and parsing the stored
single-element values back with `picrust_parser` (JSON-decode) yields the
original lists — a round-trip identity. -/
theorem C5_picrust_roundtrip (md : List (List Str))
    (hne : md ≠ [])
    (hprint : ∀ v ∈ md, ∀ s ∈ v, ∀ c ∈ s, PrintableAscii c) :
    picrust_parse (picrust_formatter md) = .ok (some md) := by
  have h := picrust_parse_loop_spec _ _ (forall₂_decodesTo_formatter md) []
  simp only [picrust_parse, h, List.nil_append]
  simp [List.isEmpty_iff, hne]

/-- Witness for C5 at a concrete two-entry metadata table. -/
theorem C5_picrust_roundtrip_witness :
    picrust_parse (picrust_formatter
        [["K00001".toList, "K00002".toList], ["ab".toList]]) =
      .ok (some [["K00001".toList, "K00002".toList], ["ab".toList]]) :=
  C5_picrust_roundtrip _ (by decide) (by decide)

/-- Claim C9: `picrust_parser` called with zero arguments returns `None`
rather than an empty list; called with one or more arguments (each a
nonempty stored array whose first element is valid JSON) it returns the
list of JSON-decoded first elements of each argument. -/
theorem C9_picrust_parse_empty_none :
    picrust_parse [] = .ok none ∧
      ∀ args vs, List.Forall₂ DecodesTo args vs → args ≠ [] →
        picrust_parse args = .ok (some vs) := by
  refine ⟨rfl, ?_⟩
  intro args vs h hne
  have hloop := picrust_parse_loop_spec _ _ h []
  have hvs : vs ≠ [] := by
    intro hv
    exact hne (by simpa [hv] using List.Forall₂.length_eq h)
  simp only [picrust_parse, hloop, List.nil_append]
  simp [List.isEmpty_iff, hvs]

/-- Witness for C9: one concrete argument, with its decoded value. -/
theorem C9_picrust_parse_empty_none_witness :
    picrust_parse [["[]".toList, "ignored".toList]] = .ok (some [[]]) :=
  C9_picrust_parse_empty_none.2 _ _
    (List.Forall₂.cons ⟨"[]".toList, ["ignored".toList], rfl, by decide⟩
      List.Forall₂.nil)
    (by decide)

/-! ### Text-file serialization helpers

`sample_id.txt` is written as `'\n'.join(collated.index)`; `to_csv` writes
one header line and one tab-separated line per row.  Splitting a file back
into lines (and a line into fields) is modelled on `List Char`. -/

/-- Python's `sep.join` on a list of strings. -/
def joinWith (sep : Char) : List Str → Str
  | [] => []
  | [l] => l
  | l :: l2 :: ls => l ++ sep :: joinWith sep (l2 :: ls)

/-- Python's `str.split(sep)` for a one-character separator. -/
def splitOnChar (sep : Char) : Str → List Str
  | [] => [[]]
  | c :: rest =>
    if c = sep then [] :: splitOnChar sep rest
    else
      match splitOnChar sep rest with
      | [] => [[c]]
      | l :: ls => (c :: l) :: ls

theorem mem_joinWith (sep : Char) :
    ∀ (ls : List Str) (c : Char), c ∈ joinWith sep ls → c = sep ∨ ∃ l ∈ ls, c ∈ l := by
  intro ls
  induction ls with
  | nil => intro c h; simp [joinWith] at h
  | cons l ls ih =>
    intro c h
    cases ls with
    | nil => simp [joinWith] at h; exact Or.inr ⟨l, by simp, h⟩
    | cons l2 ls2 =>
      simp only [joinWith, List.mem_append, List.mem_cons] at h
      rcases h with h | h | h
      · exact Or.inr ⟨l, by simp, h⟩
      · exact Or.inl h
      · rcases ih c h with h1 | ⟨l3, hl3, hc⟩
        · exact Or.inl h1
        · exact Or.inr ⟨l3, by simp [List.mem_cons] at hl3 ⊢; tauto, hc⟩

theorem splitOnChar_no_sep {sep : Char} : ∀ {l : Str}, sep ∉ l →
    splitOnChar sep l = [l] := by
  intro l
  induction l with
  | nil => intro _; rfl
  | cons c rest ih =>
    intro h
    have hc : c ≠ sep := fun hcs => h (by simp [hcs])
    have hr : sep ∉ rest := fun hrs => h (by simp [hrs])
    simp [splitOnChar, hc, ih hr]

theorem splitOnChar_append {sep : Char} : ∀ {l : Str} (rest : Str), sep ∉ l →
    splitOnChar sep (l ++ sep :: rest) = l :: splitOnChar sep rest := by
  intro l
  induction l with
  | nil => intro rest _; simp [splitOnChar]
  | cons c l ih =>
    intro rest h
    have hc : c ≠ sep := fun hcs => h (by simp [hcs])
    have hl : sep ∉ l := fun hls => h (by simp [hls])
    have h2 := ih rest hl
    simp only [List.cons_append, splitOnChar, if_neg hc, List.append_eq] at h2 ⊢
    rw [h2]

theorem splitOnChar_joinWith {sep : Char} :
    ∀ (ls : List Str), ls ≠ [] → (∀ l ∈ ls, sep ∉ l) →
      splitOnChar sep (joinWith sep ls) = ls := by
  intro ls
  induction ls with
  | nil => intro h; exact absurd rfl h
  | cons l ls ih =>
    intro _ hno
    cases ls with
    | nil => exact splitOnChar_no_sep (hno l (by simp))
    | cons l2 ls2 =>
      rw [joinWith, splitOnChar_append _ (hno l (by simp))]
      rw [ih (by simp) (fun x hx => hno x (by simp [List.mem_cons] at hx ⊢; tauto))]

theorem takeWhile_until_tab {l : Str} : ∀ (rest : Str), '\t' ∉ l →
    ((l ++ '\t' :: rest).takeWhile (fun c => c != '\t')) = l := by
  induction l with
  | nil => intro rest _; simp [List.takeWhile]
  | cons c l ih =>
    intro rest h
    have hc : c ≠ '\t' := fun hcs => h (by simp [hcs])
    have hl : '\t' ∉ l := fun hls => h (by simp [hls])
    simp only [List.cons_append, List.takeWhile_cons]
    rw [if_pos (by simp [hc]), ih rest hl]

theorem takeWhile_no_tab {l : Str} (h : '\t' ∉ l) :
    (l.takeWhile (fun c => c != '\t')) = l := by
  induction l with
  | nil => rfl
  | cons c l ih =>
    have hc : c ≠ '\t' := fun hcs => h (by simp [hcs])
    have hl : '\t' ∉ l := fun hls => h (by simp [hls])
    simp only [List.takeWhile_cons]
    rw [if_pos (by simp [hc]), ih hl]

/-! ### Cell 15: the alpha-diversity merge

```python
sample_ids = {}
for depth in ['1250', '2500', '5000', '10000', '50000']:
    collated = []
    for metric in ['observed_otus', 'faiths_pd', 'shannon']:
        alpha_ = []
        for i in np.arange(0, 10):
            ...
            alpha_.append(pd.read_csv(...).rename(columns={'Unnamed: 0': '#SampleID',
                                                           metric: '%s_%s_%i' % (metric, depth, i)}
                                                 ).set_index('#SampleID'))
        alpha_ = pd.concat(alpha_, axis=1).astype(float)
        collated.append(alpha_)
        map_.loc[alpha_.index, '%s_%s' % (metric, depth)] = alpha_.mean(1)
    collated = pd.concat(collated, axis=1)
    collated.to_csv('./03.packaged/%s/collated_alpha.txt' % depth, sep='\t', index_label='#SampleID')
    sample_ids[depth] = collated.index
    map_.dropna().to_csv('./03.packaged/%s/ag_map_with_alpha.txt' % depth, sep='\t', index_label='#SampleID')
    with open('./03.packaged/%s/sample_id.txt' % depth, 'w') as f_:
        f_.write('\n'.join(collated.index))
```

One exported `alpha-diversity.tsv` is a list of (sample ID, value) rows;
`pd.concat(..., axis=1)` outer-joins on the index, so the joint index is
the union of the per-file indexes in order of first appearance, and a
sample missing from one file gets a missing value (`NaN`) in that file's
column.  `alpha_.mean(1)` is the row mean over the present values
(`skipna=True`). -/

/-- One exported `alpha-diversity.tsv`: rows of (sample ID, value). -/
abbrev AlphaFile := List (Str × ℚ)

/-- The fixed alpha metrics list of the notebook. -/
def alpha_metrics : List Str :=
  ["observed_otus".toList, "faiths_pd".toList, "shannon".toList]

/-- Index union in order of first appearance, as produced by
`pd.concat(axis=1)` with an outer join. -/
def unionOrder (a b : List Str) : List Str :=
  a ++ b.filter (fun x => decide (x ∉ a))

/-- The index of `pd.concat(files, axis=1)`. -/
def alphaIndex (files : List AlphaFile) : List Str :=
  files.foldl (fun acc f => unionOrder acc (f.map (fun p => p.1))) []

/-- The values present for one sample across the iteration files (the
non-`NaN` entries of its row in the concatenated frame). -/
def presentVals (files : List AlphaFile) (id : Str) : List ℚ :=
  files.filterMap (alookup id)

/-- `alpha_.mean(1)` for one sample: the mean over the present values
(`skipna=True`); `NaN` when no value is present. -/
def alphaRowMean (files : List AlphaFile) (id : Str) : Option ℚ :=
  let vs := presentVals files id
  if vs.isEmpty then none else some (vs.sum / vs.length)

/-- `'%s_%s' % (metric, depth)`: the name of a mean alpha column. -/
def alphaColName (metric depth : Str) : Str := metric ++ '_' :: depth

/-- `'%s_%s_%i' % (metric, depth, i)`: the name of a per-iteration
column. -/
def alphaIterColName (metric depth : Str) (i : Nat) : Str :=
  alphaColName metric depth ++ '_' :: (Nat.repr i).toList

/-- The index of the per-depth `collated` frame: the outer-join union of
the three per-metric frames' indexes. -/
def collatedIndex (files : Str → List AlphaFile) : List Str :=
  alpha_metrics.foldl (fun acc met => unionOrder acc (alphaIndex (files met))) []

/-- The column names of the per-depth `collated` frame. -/
def collatedCols (depth : Str) (files : Str → List AlphaFile) : List Str :=
  alpha_metrics.flatMap (fun met =>
    (List.range (files met).length).map (alphaIterColName met depth))

/-- One sample's rendered cells in the `collated` frame, one per
(metric, iteration) column; `render` is the `to_csv` cell renderer
(missing values are rendered as the empty string by pandas; the numeric
formatting itself is opaque to this model). -/
def collatedCells (render : Option ℚ → Str) (files : Str → List AlphaFile) (id : Str) :
    List Str :=
  alpha_metrics.flatMap (fun met => (files met).map (fun f => render (alookup id f)))

/-- A tab-separated line, as written by `to_csv(sep='\t')`. -/
def tsvLine (fields : List Str) : Str := joinWith '\t' fields

/-- A CSV file as written by `to_csv(sep='\t', index_label=...)`: a header
line, then one line per row led by the row's index entry. -/
def csvContent (indexLabel : Str) (cols : List Str) (rows : List (Str × List Str)) : Str :=
  joinWith '\n' (tsvLine (indexLabel :: cols) :: rows.map (fun r => tsvLine (r.1 :: r.2)))

/-- The file `./03.packaged/<depth>/collated_alpha.txt`. -/
def collated_alpha_txt (render : Option ℚ → Str) (depth : Str)
    (files : Str → List AlphaFile) : Str :=
  csvContent "#SampleID".toList (collatedCols depth files)
    ((collatedIndex files).map (fun id => (id, collatedCells render files id)))

/-- The file `./03.packaged/<depth>/sample_id.txt`:
`'\n'.join(collated.index)`. -/
def sample_id_txt (files : Str → List AlphaFile) : Str :=
  joinWith '\n' (collatedIndex files)

/-- The lines of a written text file. -/
def fileLines (content : Str) : List Str := splitOnChar '\n' content

/-- The index column of a written tab-separated table: the first field of
every line after the header. -/
def csvIndexColumn (content : Str) : List Str :=
  (fileLines content).tail.map (fun l => l.takeWhile (fun c => c != '\t'))

theorem no_newline_tsvLine {fields : List Str} (h : ∀ f ∈ fields, '\n' ∉ f) :
    '\n' ∉ tsvLine fields := by
  intro hmem
  rcases mem_joinWith '\t' fields '\n' hmem with h1 | ⟨l, hl, hc⟩
  · exact absurd h1 (by decide)
  · exact h l hl hc

theorem csvIndexColumn_csvContent (indexLabel : Str) (cols : List Str)
    (rows : List (Str × List Str))
    (hhead : '\n' ∉ tsvLine (indexLabel :: cols))
    (hrow : ∀ r ∈ rows, ('\n' ∉ r.1 ∧ '\t' ∉ r.1) ∧ ∀ f ∈ r.2, '\n' ∉ f) :
    csvIndexColumn (csvContent indexLabel cols rows) = rows.map (fun r => r.1) := by
  have hsplit : fileLines (csvContent indexLabel cols rows) =
      tsvLine (indexLabel :: cols) :: rows.map (fun r => tsvLine (r.1 :: r.2)) := by
    apply splitOnChar_joinWith
    · simp
    · intro l hl
      rcases List.mem_cons.1 hl with rfl | hl2
      · exact hhead
      · obtain ⟨r, hr, rfl⟩ := List.mem_map.1 hl2
        exact no_newline_tsvLine (by
          intro f hf
          rcases List.mem_cons.1 hf with rfl | hf2
          · exact (hrow r hr).1.1
          · exact (hrow r hr).2 f hf2)
  unfold csvIndexColumn
  rw [hsplit]
  simp only [List.tail_cons, List.map_map]
  apply List.map_congr_left
  intro r hr
  obtain ⟨rid, rcells⟩ := r
  have htab : '\t' ∉ rid := (hrow _ hr).1.2
  cases rcells with
  | nil => simp [Function.comp, tsvLine, joinWith, takeWhile_no_tab htab]
  | cons f fs =>
    simp only [Function.comp_apply, tsvLine, joinWith]
    exact takeWhile_until_tab _ htab

/-- Claim C2: for every depth, the set of sample IDs written to
`sample_id.txt` (one per line) is exactly the index of the table written
to `collated_alpha.txt`.  Both are the index of the per-depth `collated`
frame; parsing the two files back (splitting on newlines, taking the
field before the first tab) recovers the same list of IDs, provided the
IDs are nonempty and free of separator characters and the rendered cells
and header contain no newline. -/
theorem C2_sample_id_matches_collated_index (render : Option ℚ → Str)
    (depth : Str) (files : Str → List AlphaFile)
    (hids : ∀ id ∈ collatedIndex files, id ≠ [] ∧ '\n' ∉ id ∧ '\t' ∉ id)
    (hnonempty : collatedIndex files ≠ [])
    (hhead : '\n' ∉ tsvLine ("#SampleID".toList :: collatedCols depth files))
    (hrender : ∀ x, '\n' ∉ render x) :
    fileLines (sample_id_txt files) =
        csvIndexColumn (collated_alpha_txt render depth files) ∧
      ∀ s, s ∈ fileLines (sample_id_txt files) ↔
        s ∈ csvIndexColumn (collated_alpha_txt render depth files) := by
  have hlines : fileLines (sample_id_txt files) = collatedIndex files :=
    splitOnChar_joinWith _ hnonempty (fun l hl => (hids l hl).2.1)
  have hcsv : csvIndexColumn (collated_alpha_txt render depth files) =
      collatedIndex files := by
    unfold collated_alpha_txt
    rw [csvIndexColumn_csvContent _ _ _ hhead (by
      intro r hr
      obtain ⟨id, hid, rfl⟩ := List.mem_map.1 hr
      refine ⟨⟨(hids id hid).2.1, (hids id hid).2.2⟩, ?_⟩
      intro f hf
      simp only [collatedCells, List.mem_flatMap, List.mem_map] at hf
      obtain ⟨met, _, fl, _, rfl⟩ := hf
      exact hrender _)]
    rw [List.map_map,
        show ((fun r : Str × List Str => r.1) ∘
          fun id => (id, collatedCells render files id)) = id from funext fun _ => rfl,
        List.map_id]
  rw [hlines, hcsv]
  exact ⟨rfl, fun s => Iff.rfl⟩

/-- Witness for C2 at one iteration file per metric and a trivial cell
renderer. -/
theorem C2_sample_id_matches_collated_index_witness :
    fileLines (sample_id_txt (fun _ => [[("s1".toList, (1 : ℚ))]])) =
        csvIndexColumn (collated_alpha_txt (fun _ => []) "1250".toList
          (fun _ => [[("s1".toList, (1 : ℚ))]])) ∧
      ∀ s, s ∈ fileLines (sample_id_txt (fun _ => [[("s1".toList, (1 : ℚ))]])) ↔
        s ∈ csvIndexColumn (collated_alpha_txt (fun _ => []) "1250".toList
          (fun _ => [[("s1".toList, (1 : ℚ))]])) :=
  C2_sample_id_matches_collated_index (fun _ => []) "1250".toList
    (fun _ => [[("s1".toList, (1 : ℚ))]])
    (by decide) (by decide) (by decide) (fun x => by simp)

/-! ### The metadata table `map_` and its per-depth mutation

`map_` is a string-typed frame indexed by `#SampleID`.  In cell 15, for
each metric the line

```python
map_.loc[alpha_.index, '%s_%s' % (metric, depth)] = alpha_.mean(1)
```

writes the per-sample iteration mean into a (fresh) float column named
`'<metric>_<depth>'`: rows whose ID is in `alpha_.index` get the mean,
every other row gets a missing value in the new column.  Then
`map_.dropna()` (no arguments: `axis=0, how='any'`, over all columns)
keeps exactly the rows with no missing value in any column. -/

/-- A cell value of the metadata frame: the base columns hold strings
(`dtype=str`), the appended alpha columns hold floats. -/
inductive Val where
  | vstr (s : Str)
  | vnum (q : ℚ)
  deriving DecidableEq, Repr

/-- A pandas frame: ordered column names and rows of
(index entry, cell values); `none` is a missing value (`NaN`). -/
structure MapFrame where
  cols : List Str
  rows : List (Str × List (Option Val))
  deriving DecidableEq, Repr

/-- Every row has one value per column. -/
def Aligned (m : MapFrame) : Prop := ∀ r ∈ m.rows, r.2.length = m.cols.length

instance (m : MapFrame) : Decidable (Aligned m) := by
  unfold Aligned; infer_instance

/-- The position of a column name in the column list (first match). -/
def idxOfCol (c : Str) : List Str → Nat
  | [] => 0
  | d :: l => if d = c then 0 else idxOfCol c l + 1

/-- `map_.loc[sel, c] = f`: write `f id` into column `c` of every row
whose ID is in `sel`.  A fresh column is appended with a missing value in
the unselected rows; an existing column is overwritten positionally. -/
def setColumn (m : MapFrame) (c : Str) (sel : List Str) (f : Str → Option ℚ) : MapFrame :=
  if c ∈ m.cols then
    { cols := m.cols,
      rows := m.rows.map (fun r =>
        (r.1, if r.1 ∈ sel then r.2.set (idxOfCol c m.cols) ((f r.1).map Val.vnum) else r.2)) }
  else
    { cols := m.cols ++ [c],
      rows := m.rows.map (fun r =>
        (r.1, r.2 ++ [if r.1 ∈ sel then (f r.1).map Val.vnum else none])) }

/-- The body of the per-depth metric loop: one `setColumn` per metric,
with the selection `alpha_.index` and the row means `alpha_.mean(1)`. -/
def addAlphaColumns (m : MapFrame) (depth : Str) (files : Str → List AlphaFile) : MapFrame :=
  alpha_metrics.foldl (fun acc met =>
    setColumn acc (alphaColName met depth) (alphaIndex (files met))
      (alphaRowMean (files met))) m

/-- The rows kept by `map_.dropna()`: those with no missing value in any
column. -/
def dropna_rows (m : MapFrame) : List (Str × List (Option Val)) :=
  m.rows.filter (fun r => r.2.all (fun v => v.isSome))

/-- The index written to `./03.packaged/<depth>/ag_map_with_alpha.txt`:
the IDs of `map_.dropna()` after this depth's columns were added. -/
def ag_map_ids (m : MapFrame) (depth : Str) (files : Str → List AlphaFile) : List Str :=
  (dropna_rows (addAlphaColumns m depth files)).map (fun r => r.1)

/-- Cell access: `some v` when row `id` exists and column `c` is in
range, where `v` is the stored value (`none` = missing). -/
def getCell (m : MapFrame) (id c : Str) : Option (Option Val) :=
  (alookup id m.rows).bind (fun vs => vs[idxOfCol c m.cols]?)

/-- The value the metric loop leaves in column `'<met>_<depth>'` for row
`id`: the iteration mean when `id` is in that metric's `alpha_.index`,
and a missing value otherwise. -/
def alphaEntry (files : Str → List AlphaFile) (depth met id : Str) : Option Val :=
  if id ∈ alphaIndex (files met) then (alphaRowMean (files met) id).map Val.vnum else none

/-! ### The biom table and sample-axis subsetting (cells 18 and 24)

`biom subset-table --ids sample_path --axis sample` and
`t_in.filter(id_, axis='sample', inplace=False)` both keep exactly the
table's samples that occur in the given ID list, restricting each
observation's count row to the kept columns. -/

/-- A biom-table metadata value. -/
inductive MVal where
  | mstr (s : Str)
  | mlist (l : List Str)
  deriving DecidableEq, Repr

/-- A biom table: observation IDs, sample IDs, one count row per
observation, and per-observation metadata. -/
structure BiomTable where
  obsIds : List Str
  sampleIds : List Str
  counts : List (List ℚ)
  obsMd : List (List (Str × MVal))
  deriving DecidableEq, Repr

/-- Sample-axis filtering to an ID list. -/
def filterSamples (t : BiomTable) (keep : List Str) : BiomTable :=
  { obsIds := t.obsIds,
    sampleIds := t.sampleIds.filter (fun s => decide (s ∈ keep)),
    counts := t.counts.map (fun row =>
      ((t.sampleIds.zip row).filter (fun p => decide (p.1 ∈ keep))).map (fun p => p.2)),
    obsMd := t.obsMd }

/-! ### Structure lemmas for the metric loop -/

theorem alphaColName_ne {m1 m2 : Str} (depth : Str) (h : m1.length ≠ m2.length) :
    alphaColName m1 depth ≠ alphaColName m2 depth := by
  intro he
  apply h
  have hl := congrArg List.length he
  simp only [alphaColName, List.length_append, List.length_cons] at hl
  omega

/-- The three per-depth column names are pairwise distinct. -/
theorem alphaColNames_pairwise_ne (depth : Str) :
    alphaColName "faiths_pd".toList depth ≠ alphaColName "observed_otus".toList depth ∧
      alphaColName "shannon".toList depth ≠ alphaColName "observed_otus".toList depth ∧
      alphaColName "shannon".toList depth ≠ alphaColName "faiths_pd".toList depth :=
  ⟨alphaColName_ne depth (by decide), alphaColName_ne depth (by decide),
    alphaColName_ne depth (by decide)⟩

theorem setColumn_cols (m : MapFrame) (c : Str) (sel : List Str)
    (f : Str → Option ℚ) (h : c ∉ m.cols) :
    (setColumn m c sel f).cols = m.cols ++ [c] := by
  simp [setColumn, h]

theorem setColumn_rows (m : MapFrame) (c : Str) (sel : List Str)
    (f : Str → Option ℚ) (h : c ∉ m.cols) :
    (setColumn m c sel f).rows = m.rows.map (fun r =>
      (r.1, r.2 ++ [if r.1 ∈ sel then (f r.1).map Val.vnum else none])) := by
  simp [setColumn, h]

/-- Unfolded form of the per-depth metric loop when the three column
names are fresh: the three alpha columns are appended in metric order,
and every row gains its three `alphaEntry` values. -/
theorem addAlphaColumns_eq (m : MapFrame) (depth : Str) (files : Str → List AlphaFile)
    (hfresh : ∀ met ∈ alpha_metrics, alphaColName met depth ∉ m.cols) :
    (addAlphaColumns m depth files).cols =
        m.cols ++ [alphaColName "observed_otus".toList depth,
          alphaColName "faiths_pd".toList depth,
          alphaColName "shannon".toList depth] ∧
      (addAlphaColumns m depth files).rows =
        m.rows.map (fun r =>
          (r.1, r.2 ++ [alphaEntry files depth "observed_otus".toList r.1,
            alphaEntry files depth "faiths_pd".toList r.1,
            alphaEntry files depth "shannon".toList r.1])) := by
  obtain ⟨hne21, hne31, hne32⟩ := alphaColNames_pairwise_ne depth
  have h1 : alphaColName "observed_otus".toList depth ∉ m.cols :=
    hfresh _ (by simp [alpha_metrics])
  have h2 : alphaColName "faiths_pd".toList depth ∉ m.cols :=
    hfresh _ (by simp [alpha_metrics])
  have h3 : alphaColName "shannon".toList depth ∉ m.cols :=
    hfresh _ (by simp [alpha_metrics])
  have h2' : alphaColName "faiths_pd".toList depth ∉
      m.cols ++ [alphaColName "observed_otus".toList depth] := by
    intro hmem
    rcases List.mem_append.1 hmem with hmem | hmem
    · exact h2 hmem
    · exact hne21 (List.mem_singleton.1 hmem)
  have h3' : alphaColName "shannon".toList depth ∉
      (m.cols ++ [alphaColName "observed_otus".toList depth]) ++
        [alphaColName "faiths_pd".toList depth] := by
    intro hmem
    rcases List.mem_append.1 hmem with hmem | hmem
    · rcases List.mem_append.1 hmem with hmem | hmem
      · exact h3 hmem
      · exact hne31 (List.mem_singleton.1 hmem)
    · exact hne32 (List.mem_singleton.1 hmem)
  have hcols1 := setColumn_cols m (alphaColName "observed_otus".toList depth)
    (alphaIndex (files "observed_otus".toList))
    (alphaRowMean (files "observed_otus".toList)) h1
  have hrows1 := setColumn_rows m (alphaColName "observed_otus".toList depth)
    (alphaIndex (files "observed_otus".toList))
    (alphaRowMean (files "observed_otus".toList)) h1
  have h2x : alphaColName "faiths_pd".toList depth ∉
      (setColumn m (alphaColName "observed_otus".toList depth)
        (alphaIndex (files "observed_otus".toList))
        (alphaRowMean (files "observed_otus".toList))).cols := by
    rw [hcols1]; exact h2'
  have hcols2 := setColumn_cols _ (alphaColName "faiths_pd".toList depth)
    (alphaIndex (files "faiths_pd".toList))
    (alphaRowMean (files "faiths_pd".toList)) h2x
  have hrows2 := setColumn_rows _ (alphaColName "faiths_pd".toList depth)
    (alphaIndex (files "faiths_pd".toList))
    (alphaRowMean (files "faiths_pd".toList)) h2x
  rw [hcols1] at hcols2
  rw [hrows1] at hrows2
  have h3x : alphaColName "shannon".toList depth ∉
      (setColumn (setColumn m (alphaColName "observed_otus".toList depth)
          (alphaIndex (files "observed_otus".toList))
          (alphaRowMean (files "observed_otus".toList)))
        (alphaColName "faiths_pd".toList depth)
        (alphaIndex (files "faiths_pd".toList))
        (alphaRowMean (files "faiths_pd".toList))).cols := by
    rw [hcols2]; exact h3'
  have hcols3 := setColumn_cols _ (alphaColName "shannon".toList depth)
    (alphaIndex (files "shannon".toList))
    (alphaRowMean (files "shannon".toList)) h3x
  have hrows3 := setColumn_rows _ (alphaColName "shannon".toList depth)
    (alphaIndex (files "shannon".toList))
    (alphaRowMean (files "shannon".toList)) h3x
  rw [hcols2] at hcols3
  rw [hrows2] at hrows3
  have hunfold : addAlphaColumns m depth files =
      setColumn (setColumn (setColumn m (alphaColName "observed_otus".toList depth)
          (alphaIndex (files "observed_otus".toList))
          (alphaRowMean (files "observed_otus".toList)))
        (alphaColName "faiths_pd".toList depth)
        (alphaIndex (files "faiths_pd".toList))
        (alphaRowMean (files "faiths_pd".toList)))
        (alphaColName "shannon".toList depth)
        (alphaIndex (files "shannon".toList))
        (alphaRowMean (files "shannon".toList)) := rfl
  rw [hunfold]
  refine ⟨by rw [hcols3]; simp, ?_⟩
  rw [hrows3]
  simp only [List.map_map]
  apply List.map_congr_left
  intro r _
  simp [Function.comp, alphaEntry, List.append_assoc]

theorem mem_unionOrder {x : Str} {a b : List Str} :
    x ∈ unionOrder a b ↔ x ∈ a ∨ x ∈ b := by
  simp only [unionOrder, List.mem_append, List.mem_filter, decide_eq_true_eq]
  by_cases hx : x ∈ a <;> tauto

theorem mem_foldl_unionOrder {α : Type} (g : α → List Str) :
    ∀ (l : List α) (init : List Str) (y : Str),
      y ∈ l.foldl (fun acc x => unionOrder acc (g x)) init ↔
        y ∈ init ∨ ∃ x ∈ l, y ∈ g x := by
  intro l
  induction l with
  | nil => intro init y; simp
  | cons x l ih =>
    intro init y
    simp only [List.foldl_cons, ih, mem_unionOrder, List.mem_cons]
    constructor
    · rintro (⟨h | h⟩ | ⟨z, hz, hy⟩)
      · exact Or.inl h
      · exact Or.inr ⟨x, Or.inl rfl, h⟩
      · exact Or.inr ⟨z, Or.inr hz, hy⟩
    · rintro (h | ⟨z, rfl | hz, hy⟩)
      · exact Or.inl (Or.inl h)
      · exact Or.inl (Or.inr hy)
      · exact Or.inr ⟨z, hz, hy⟩

theorem mem_alphaIndex_of_mem {files : List AlphaFile} {f : AlphaFile} {id : Str}
    (hf : f ∈ files) (hid : id ∈ f.map (fun p => p.1)) : id ∈ alphaIndex files := by
  unfold alphaIndex
  exact (mem_foldl_unionOrder _ files [] id).2 (Or.inr ⟨f, hf, hid⟩)

theorem mem_collatedIndex_of_mem_alphaIndex {files : Str → List AlphaFile} {met id : Str}
    (hmet : met ∈ alpha_metrics) (hid : id ∈ alphaIndex (files met)) :
    id ∈ collatedIndex files := by
  unfold collatedIndex
  exact (mem_foldl_unionOrder _ alpha_metrics [] id).2 (Or.inr ⟨met, hmet, hid⟩)

theorem mem_ids_of_alookup {f : AlphaFile} {id : Str} {v : ℚ}
    (h : alookup id f = some v) : id ∈ f.map (fun p => p.1) := by
  unfold alookup at h
  obtain ⟨p, hp, -⟩ := Option.map_eq_some'.1 h
  have hmem := List.mem_of_find?_eq_some hp
  have hkey := List.find?_some hp
  simp only [decide_eq_true_eq] at hkey
  exact List.mem_map.2 ⟨p, hmem, hkey⟩

theorem filterMap_alookup_of_forall₂ {id : Str} {files : List AlphaFile} {vs : List ℚ}
    (h : List.Forall₂ (fun f v => alookup id f = some v) files vs) :
    files.filterMap (alookup id) = vs := by
  induction h with
  | nil => rfl
  | cons hd _ ih => simp [List.filterMap_cons, hd, ih]

/-- Row lookup in the unfolded metric-loop rows: the looked-up row keeps
its ID and gains the three alpha entries. -/
theorem alookup_addAlphaColumns_rows (m : MapFrame) (depth : Str)
    (files : Str → List AlphaFile)
    (hfresh : ∀ met ∈ alpha_metrics, alphaColName met depth ∉ m.cols)
    {id : Str} {vs : List (Option Val)} (hid : alookup id m.rows = some vs) :
    alookup id (addAlphaColumns m depth files).rows =
      some (vs ++ [alphaEntry files depth "observed_otus".toList id,
        alphaEntry files depth "faiths_pd".toList id,
        alphaEntry files depth "shannon".toList id]) := by
  rw [(addAlphaColumns_eq m depth files hfresh).2]
  unfold alookup at hid ⊢
  rw [List.find?_map]
  obtain ⟨p, hp, hpv⟩ := Option.map_eq_some'.1 hid
  have hkey := List.find?_some hp
  simp only [decide_eq_true_eq] at hkey
  have hcomp : ((fun q : Str × List (Option Val) => decide (q.1 = id)) ∘
      fun r : Str × List (Option Val) =>
        (r.1, r.2 ++ [alphaEntry files depth "observed_otus".toList r.1,
          alphaEntry files depth "faiths_pd".toList r.1,
          alphaEntry files depth "shannon".toList r.1])) =
      fun q : Str × List (Option Val) => decide (q.1 = id) := rfl
  rw [hcomp, hp]
  simp [hkey, hpv]

theorem alookup_mem {l : List (Str × α)} {id : Str} {v : α}
    (h : alookup id l = some v) : ∃ p ∈ l, p.1 = id ∧ p.2 = v := by
  unfold alookup at h
  obtain ⟨p, hp, hpv⟩ := Option.map_eq_some'.1 h
  have hkey := List.find?_some hp
  simp only [decide_eq_true_eq] at hkey
  exact ⟨p, List.mem_of_find?_eq_some hp, hkey, hpv⟩

theorem getElem?_append_offset {α : Type} (vs rest : List α) (k : Nat) :
    (vs ++ rest)[vs.length + k]? = rest[k]? := by
  rw [List.getElem?_append_right (Nat.le_add_right _ _)]
  congr 1
  omega

theorem idxOfCol_cons_self (c : Str) (l : List Str) : idxOfCol c (c :: l) = 0 := by
  simp [idxOfCol]

theorem idxOfCol_cons_ne {d c : Str} (l : List Str) (h : d ≠ c) :
    idxOfCol c (d :: l) = idxOfCol c l + 1 := by
  simp [idxOfCol, h]

theorem idxOfCol_append_of_not_mem {c : Str} {l1 : List Str} (l2 : List Str)
    (h : c ∉ l1) : idxOfCol c (l1 ++ l2) = l1.length + idxOfCol c l2 := by
  induction l1 with
  | nil => simp [idxOfCol]
  | cons d l1 ih =>
    have hd : d ≠ c := fun hdc => h (by simp [hdc])
    have hl : c ∉ l1 := fun hm => h (by simp [hm])
    simp only [List.cons_append, idxOfCol_cons_ne _ hd, ih hl, List.length_cons]
    omega

/-- The iteration mean stored by the metric loop, computed from the
per-iteration values: when the sample occurs in every iteration file,
`alpha_.mean(1)` is the sum of its values divided by their count. -/
theorem alphaRowMean_of_forall₂ {id : Str} {files : List AlphaFile} {vals : List ℚ}
    (hvals : List.Forall₂ (fun f v => alookup id f = some v) files vals)
    (hne : files ≠ []) :
    alphaRowMean files id = some (vals.sum / vals.length) := by
  have hfm : presentVals files id = vals := filterMap_alookup_of_forall₂ hvals
  have hvne : vals ≠ [] := by
    intro hv
    apply hne
    have hlen := hvals.length_eq
    rw [hv] at hlen
    simp only [List.length_nil] at hlen
    exact List.length_eq_zero.1 hlen
  unfold alphaRowMean
  rw [hfm]
  simp [List.isEmpty_iff, hvne]

/-- Claim C4: for every depth and alpha metric, the value stored in the
metadata column `'<metric>_<depth>'` for a sample equals the arithmetic
mean of that sample's 10 per-iteration alpha-diversity values (here with
exact rational arithmetic in place of floating point): when the sample
has a value in each of the 10 iteration files, the stored cell is their
sum divided by 10. -/
theorem C4_alpha_mean_column (m : MapFrame) (depth : Str) (files : Str → List AlphaFile)
    (metric id : Str) (vs : List (Option Val)) (vals : List ℚ)
    (hmet : metric ∈ alpha_metrics)
    (hal : Aligned m)
    (hfresh : ∀ met ∈ alpha_metrics, alphaColName met depth ∉ m.cols)
    (hid : alookup id m.rows = some vs)
    (hlen : (files metric).length = 10)
    (hvals : List.Forall₂ (fun f v => alookup id f = some v) (files metric) vals) :
    getCell (addAlphaColumns m depth files) id (alphaColName metric depth) =
      some (some (Val.vnum (vals.sum / 10))) := by
  obtain ⟨hne21, hne31, hne32⟩ := alphaColNames_pairwise_ne depth
  have hfne : files metric ≠ [] := by
    intro hf; rw [hf] at hlen; simp at hlen
  have hv10 : vals.length = 10 := by rw [← hvals.length_eq, hlen]
  have hmean : alphaRowMean (files metric) id = some (vals.sum / 10) := by
    rw [alphaRowMean_of_forall₂ hvals hfne, hv10]
    norm_num
  have hmemIdx : id ∈ alphaIndex (files metric) := by
    cases hfm : files metric with
    | nil => exact absurd hfm hfne
    | cons f0 rest =>
      rw [hfm] at hvals
      cases hvals with
      | cons h0 _ =>
        exact mem_alphaIndex_of_mem (List.mem_cons_self f0 rest)
          (mem_ids_of_alookup h0)
  have hentry : alphaEntry files depth metric id = some (Val.vnum (vals.sum / 10)) := by
    unfold alphaEntry
    rw [if_pos hmemIdx, hmean]
    rfl
  have hvslen : vs.length = m.cols.length := by
    obtain ⟨p, hpmem, hpid, hpv⟩ := alookup_mem hid
    rw [← hpv]
    exact hal p hpmem
  have hrow := alookup_addAlphaColumns_rows m depth files hfresh hid
  have hcols := (addAlphaColumns_eq m depth files hfresh).1
  unfold getCell
  rw [hrow, Option.some_bind, hcols]
  simp only [alpha_metrics, List.mem_cons, List.not_mem_nil, or_false] at hmet
  rcases hmet with rfl | rfl | rfl
  · rw [idxOfCol_append_of_not_mem _
      (hfresh "observed_otus".toList (by simp [alpha_metrics]))]
    rw [idxOfCol_cons_self, ← hvslen, getElem?_append_offset, hentry]
    rfl
  · rw [idxOfCol_append_of_not_mem _
      (hfresh "faiths_pd".toList (by simp [alpha_metrics]))]
    rw [idxOfCol_cons_ne _ (Ne.symm hne21), idxOfCol_cons_self, ← hvslen,
      show (0 : Nat) + 1 = 1 from rfl, getElem?_append_offset, hentry]
    rfl
  · rw [idxOfCol_append_of_not_mem _
      (hfresh "shannon".toList (by simp [alpha_metrics]))]
    rw [idxOfCol_cons_ne _ (Ne.symm hne31), idxOfCol_cons_ne _ (Ne.symm hne32),
      idxOfCol_cons_self, ← hvslen,
      show (0 : Nat) + 1 + 1 = 2 from rfl, getElem?_append_offset, hentry]
    rfl

/-! ### Concrete instances used by witnesses and counterexamples -/

/-- A concrete depth. -/
def demoDepth : Str := "1250".toList

/-- Ten identical iteration files per metric, covering samples `s1` and
`s2`. -/
def demoFiles : Str → List AlphaFile := fun _ =>
  List.replicate 10 [("s1".toList, (1 : ℚ)), ("s2".toList, (2 : ℚ))]

/-- A base metadata table with one non-alpha column `age`: `s1` has a
value there, `s2` has a missing value. -/
def demoMap : MapFrame :=
  { cols := ["age".toList],
    rows := [("s1".toList, [some (Val.vstr "30".toList)]),
             ("s2".toList, [none])] }

/-- A biom table holding both samples. -/
def demoTable : BiomTable :=
  { obsIds := ["O1".toList],
    sampleIds := ["s1".toList, "s2".toList],
    counts := [[5, 7]],
    obsMd := [[]] }

/-- Witness for C4: sample `s1`, metric `shannon`, ten iteration values
of 1 each; the stored cell is their mean. -/
theorem C4_alpha_mean_column_witness :
    getCell (addAlphaColumns demoMap demoDepth demoFiles) "s1".toList
        (alphaColName "shannon".toList demoDepth) =
      some (some (Val.vnum ((List.replicate 10 (1 : ℚ)).sum / 10))) :=
  C4_alpha_mean_column demoMap demoDepth demoFiles "shannon".toList "s1".toList
    [some (Val.vstr "30".toList)] (List.replicate 10 (1 : ℚ))
    (by decide) (by decide) (by decide) (by decide) (by decide) (by decide)

/-- Whether the cell holds a stored (non-missing) value. -/
def cellPresent (m : MapFrame) (id c : Str) : Bool :=
  match getCell m id c with
  | some (some _) => true
  | _ => false

/-- Claim C6 (counterexample): in the accumulated metadata table, sample
`s2` has every alpha-diversity cell present (all three metric means are
stored), yet its row is not written to `ag_map_with_alpha.txt`, because
`map_.dropna()` also drops rows over missing values in non-alpha columns
(here the base column `age`).  This refutes "a row is dropped if and only
if at least one of its alpha-diversity columns is missing". -/
theorem C6_counterexample_nonalpha_nan_drops_row :
    (∀ met ∈ alpha_metrics,
        cellPresent (addAlphaColumns demoMap demoDepth demoFiles) "s2".toList
          (alphaColName met demoDepth) = true) ∧
      "s2".toList ∉ ag_map_ids demoMap demoDepth demoFiles := by
  decide

/-- Claim C6 (amended): the rows written to `ag_map_with_alpha.txt` are
exactly the rows of the accumulated metadata table with no missing value
in ANY column — a row is dropped if and only if at least one of its
values (alpha-diversity or other metadata) is missing. -/
theorem C6_dropna_keeps_fully_present_rows (m : MapFrame) (depth : Str)
    (files : Str → List AlphaFile) (r : Str × List (Option Val)) :
    r ∈ dropna_rows (addAlphaColumns m depth files) ↔
      r ∈ (addAlphaColumns m depth files).rows ∧ ∀ v ∈ r.2, v.isSome := by
  simp [dropna_rows, List.mem_filter, List.all_eq_true]

/-- Witness for the amended C6 at a concrete instance. -/
theorem C6_dropna_keeps_fully_present_rows_witness :
    ("s1".toList, ([] : List (Option Val))) ∈
        dropna_rows (addAlphaColumns ⟨[], []⟩ demoDepth demoFiles) ↔
      ("s1".toList, ([] : List (Option Val))) ∈
          (addAlphaColumns (⟨[], []⟩ : MapFrame) demoDepth demoFiles).rows ∧
        ∀ v ∈ ([] : List (Option Val)), v.isSome :=
  C6_dropna_keeps_fully_present_rows ⟨[], []⟩ demoDepth demoFiles _

/-- Claim C3 (counterexample): sample `s2` is kept by the sample-ID
filtering of the biom table (it is in the per-depth sample-ID list), but
it is absent from `ag_map_with_alpha.txt`, since its row has a missing
value in the non-alpha column `age` and `dropna()` removes it.  The two
ID sets are therefore not equal. -/
theorem C3_counterexample_filtered_not_in_map :
    "s2".toList ∈ (filterSamples demoTable (collatedIndex demoFiles)).sampleIds ∧
      "s2".toList ∉ ag_map_ids demoMap demoDepth demoFiles := by
  decide

/-- Claim C3 (amended): per depth, both the filtered biom tables' sample
IDs and the IDs written to `ag_map_with_alpha.txt` are contained in the
sample-ID list of `sample_id.txt` (the collated index); the full equality
claimed by the spec fails, because a row with complete alpha values can
still be dropped from the metadata file over a missing non-alpha value. -/
theorem C3_sample_ids_contained_in_list (t : BiomTable) (m : MapFrame) (depth : Str)
    (files : Str → List AlphaFile)
    (hfresh : ∀ met ∈ alpha_metrics, alphaColName met depth ∉ m.cols) :
    (∀ s ∈ (filterSamples t (collatedIndex files)).sampleIds, s ∈ collatedIndex files) ∧
      ∀ s ∈ ag_map_ids m depth files, s ∈ collatedIndex files := by
  constructor
  · intro s hs
    simp only [filterSamples, List.mem_filter, decide_eq_true_eq] at hs
    exact hs.2
  · intro s hs
    unfold ag_map_ids dropna_rows at hs
    obtain ⟨r, hr, rfl⟩ := List.mem_map.1 hs
    obtain ⟨hrows, hall⟩ := List.mem_filter.1 hr
    rw [(addAlphaColumns_eq m depth files hfresh).2] at hrows
    obtain ⟨r0, hr0mem, heq⟩ := List.mem_map.1 hrows
    subst heq
    have he1 : (alphaEntry files depth "observed_otus".toList r0.1).isSome := by
      have hmem1 : alphaEntry files depth "observed_otus".toList r0.1 ∈
          (r0.1, r0.2 ++ [alphaEntry files depth "observed_otus".toList r0.1,
            alphaEntry files depth "faiths_pd".toList r0.1,
            alphaEntry files depth "shannon".toList r0.1]).2 := by simp
      exact List.all_eq_true.1 hall _ hmem1
    by_cases hmem : r0.1 ∈ alphaIndex (files "observed_otus".toList)
    · exact mem_collatedIndex_of_mem_alphaIndex (by simp [alpha_metrics]) hmem
    · rw [alphaEntry, if_neg hmem] at he1
      simp at he1

/-- Witness for the amended C3 at the concrete demo instance. -/
theorem C3_sample_ids_contained_in_list_witness :
    (∀ s ∈ (filterSamples demoTable (collatedIndex demoFiles)).sampleIds,
        s ∈ collatedIndex demoFiles) ∧
      ∀ s ∈ ag_map_ids demoMap demoDepth demoFiles, s ∈ collatedIndex demoFiles :=
  C3_sample_ids_contained_in_list demoTable demoMap demoDepth demoFiles (by decide)

/-! ### Cell 26: beta-diversity extraction and relocation

```python
for depth in depths:
    temp_dir = './02.build_package/04.beta/%s/temp_dir/' % depth
    if not os.path.exists(temp_dir):
        os.makedirs(temp_dir)
    if not os.path.exists('./03.packaged/%s/distance' % depth):
        os.makedirs('./03.packaged/%s/distance' % depth)
    for metric in ['bray_curtis', 'unweighted', 'weighted-normalized', 'weighted-unnormalized']:
        old_filepath = './02.build_package/04.beta/%s/%s.qza' % (depth, metric)
        new_path = './03.packaged/%s/distance/%s.txt'
        !qiime tools extract $old_filepath --output-dir $temp_dir
        uuid_dir = os.path.join(temp_dir, os.listdir(temp_dir)[0])
        full_fp = os.path.join(uuid_dir, 'data/distance-matrix.tsv')
        shutil.move(full_fp, new_path % (depth, metric))
        !rm -r $uuid_dir
    os.removedirs(temp_dir)
```

Per metric, `qiime tools extract` drops one directory (named by the
artifact's UUID, holding `data/distance-matrix.tsv`) into the fresh
temporary directory; `os.listdir(temp_dir)[0]` names it, the matrix file
is moved to its destination, and the UUID directory is removed, leaving
`temp_dir` empty again.  After the metric loop `os.removedirs(temp_dir)`
removes the (empty) temporary directory, raising `OSError` were it
non-empty.  The temporary directory's contents and the per-metric
destination files are the state. -/

/-- The four beta-diversity metrics of the notebook. -/
def beta_metrics : List Str :=
  ["bray_curtis".toList, "unweighted".toList,
   "weighted-normalized".toList, "weighted-unnormalized".toList]

/-- State of one depth's relocation loop: the entries of `temp_dir`
(UUID directory name, content of its `data/distance-matrix.tsv`) and the
destination files written so far, keyed by metric, newest first. -/
structure BetaState where
  temp : List (Str × Str)
  dist : List (Str × Str)
  deriving DecidableEq, Repr

/-- One metric iteration: extract the artifact into `temp_dir`, name the
first listed entry, move its matrix file to the destination, delete the
entry. -/
def betaIter (artifacts : Str → Str × Str) (st : BetaState) (metric : Str) :
    Except PyErr BetaState :=
  let a := artifacts metric
  let temp1 := st.temp ++ [(a.1, a.2)]
  match temp1.head? with
  | none => .error .indexError
  | some u =>
    match alookup u.1 temp1 with
    | none => .error (.fileNotFound u.1)
    | some content =>
      .ok { temp := temp1.filter (fun p => decide (p.1 ≠ u.1)),
            dist := (metric, content) :: st.dist }

/-- One depth of cell 26: run the four metrics starting from a freshly
created (empty) temporary directory, then `os.removedirs(temp_dir)`,
which succeeds only on an empty directory; the boolean records whether
the temporary directory still exists afterwards. -/
def runBetaDepth (artifacts : Str → Str × Str) :
    Except PyErr (List (Str × Str) × Bool) := do
  let st ← beta_metrics.foldlM (betaIter artifacts) ⟨[], []⟩
  if st.temp.isEmpty then pure (st.dist, false)
  else .error (.osError "temp_dir".toList)

theorem except_bind_ok {ε α β : Type} (a : α) (f : α → Except ε β) :
    (Except.ok (ε := ε) a >>= f) = f a := rfl

theorem betaIter_empty_temp (artifacts : Str → Str × Str) (d : List (Str × Str))
    (metric : Str) :
    betaIter artifacts ⟨[], d⟩ metric =
      .ok ⟨[], (metric, (artifacts metric).2) :: d⟩ := by
  unfold betaIter
  simp [alookup_cons, List.filter]

/-- Claim C7: for every depth and each of the four beta-diversity
metrics, the destination file `./03.packaged/<depth>/distance/<metric>.txt`
holds the distance-matrix file found inside the single extracted entry of
the temporary directory, and the temporary extraction directory no longer
exists when the depth is finished (`os.removedirs` succeeds on the
emptied directory). -/
theorem C7_beta_relocation (artifacts : Str → Str × Str) :
    runBetaDepth artifacts =
        .ok (beta_metrics.reverse.map (fun met => (met, (artifacts met).2)), false) ∧
      ∀ metric ∈ beta_metrics,
        alookup metric (beta_metrics.reverse.map (fun met => (met, (artifacts met).2))) =
          some (artifacts metric).2 := by
  constructor
  · unfold runBetaDepth
    simp only [beta_metrics, List.foldlM_cons, List.foldlM_nil, betaIter_empty_temp,
      except_bind_ok]
    rfl
  · intro metric hm
    simp only [beta_metrics, List.mem_cons, List.not_mem_nil, or_false] at hm
    rcases hm with rfl | rfl | rfl | rfl <;>
      simp [beta_metrics, alookup_cons, List.reverse_cons]

/-- Witness for C7 at a concrete artifact assignment. -/
theorem C7_beta_relocation_witness :
    runBetaDepth (fun _ => ("uuid".toList, "0\t1".toList)) =
        .ok ((beta_metrics.reverse.map
          (fun met => (met, ((fun _ : Str => ("uuid".toList, "0\t1".toList)) met).2))), false) ∧
      ∀ metric ∈ beta_metrics,
        alookup metric (beta_metrics.reverse.map
            (fun met => (met, ((fun _ : Str => ("uuid".toList, "0\t1".toList)) met).2))) =
          some ((fun _ : Str => ("uuid".toList, "0\t1".toList)) metric).2 :=
  C7_beta_relocation (fun _ => ("uuid".toList, "0\t1".toList))

/-! ### Cell 24: the full-PICRUSt packaging loop

```python
for depth in depths[::-1]:
    print(depth)
    id_ = sample_ids[depth]
    picrust_out = './03.packaged/%s/picrust/deblur_no_blooms_125nt_min1250_gg99_normed_pred.biom' % depth
    with h5py.File(fp_in) as f_:
        t_in = biom.Table.from_hdf5(f_, parse_fs=parse_fs)
    t_depth = t_in.filter(id_, axis='sample', inplace=False)
    with h5py.File(picrust_out, 'w') as fp_:
        t_depth.to_hdf5(fp_, 'filtered for %s sequences/sample' % depth, format_fs=format_fs)
```

`t_in` is reloaded from the fixed input file on every iteration, and
`filter(..., inplace=False)` returns a new table (the biom contract for
`inplace=False`), modelled as the pure `filterSamples`. -/

/-- The loop state: the currently loaded `t_in` and the written output
files, keyed by depth, newest first. -/
structure PicrustLoopState where
  t_in : BiomTable
  outs : List (Str × BiomTable)
  deriving DecidableEq, Repr

/-- One iteration of the cell-24 loop: reload the base table from
`fp_in`, filter it (non-mutating) to the depth's sample IDs, write the
output file. -/
def picrustIter (base : BiomTable) (sample_ids : Str → List Str)
    (st : PicrustLoopState) (depth : Str) : PicrustLoopState :=
  let t_in := base
  let t_depth := filterSamples t_in (sample_ids depth)
  { t_in := t_in, outs := (depth, t_depth) :: st.outs }

/-- The cell-24 loop over a given iteration order of the depths. -/
def runPicrustLoop (base : BiomTable) (sample_ids : Str → List Str)
    (st0 : PicrustLoopState) (order : List Str) : PicrustLoopState :=
  order.foldl (picrustIter base sample_ids) st0

theorem runPicrustLoop_t_in (base : BiomTable) (sample_ids : Str → List Str) :
    ∀ (order : List Str) (st : PicrustLoopState),
      (runPicrustLoop base sample_ids st order).t_in =
        if order.isEmpty then st.t_in else base := by
  intro order
  induction order with
  | nil => intro st; simp [runPicrustLoop]
  | cons a l ih =>
    intro st
    simp only [runPicrustLoop, List.foldl_cons] at ih ⊢
    rw [ih]
    cases l <;> simp [picrustIter]

theorem runPicrustLoop_outs_not_mem (base : BiomTable) (sample_ids : Str → List Str)
    {d : Str} : ∀ (order : List Str) (st : PicrustLoopState), d ∉ order →
      alookup d (runPicrustLoop base sample_ids st order).outs = alookup d st.outs := by
  intro order
  induction order with
  | nil => intro st _; rfl
  | cons a l ih =>
    intro st hd
    have ha : a ≠ d := fun h => hd (by simp [h])
    have hl : d ∉ l := fun h => hd (by simp [h])
    simp only [runPicrustLoop, List.foldl_cons] at ih ⊢
    rw [ih _ hl]
    simp [picrustIter, alookup_cons, ha]

/-- Claim C8: in the full-PICRUSt packaging loop, filtering the reloaded
base table to a depth's sample-ID set is non-mutating (`inplace=False`),
so the in-memory base table equals the loaded base after the loop, each
depth's output table is `filterSamples base (ids depth)`, and the
per-depth outputs are independent of the iteration order (in particular
of the reverse order the loop actually uses). -/
theorem C8_picrust_loop_pure (base : BiomTable) (sample_ids : Str → List Str)
    (st0 : PicrustLoopState) (order : List Str) (d : Str) (hd : d ∈ order) :
    alookup d (runPicrustLoop base sample_ids st0 order).outs =
        some (filterSamples base (sample_ids d)) ∧
      (runPicrustLoop base sample_ids st0 order).t_in = base ∧
      ∀ order2, d ∈ order2 →
        alookup d (runPicrustLoop base sample_ids st0 order2).outs =
          alookup d (runPicrustLoop base sample_ids st0 order).outs := by
  have main : ∀ (l : List Str) (st : PicrustLoopState), d ∈ l →
      alookup d (runPicrustLoop base sample_ids st l).outs =
        some (filterSamples base (sample_ids d)) := by
    intro l
    induction l with
    | nil => intro st h; exact absurd h (List.not_mem_nil d)
    | cons a l ih =>
      intro st h
      by_cases hdl : d ∈ l
      · exact ih _ hdl
      · have hda : a = d := by
          rcases List.mem_cons.1 h with h1 | h1
          · exact h1.symm
          · exact absurd h1 hdl
        subst hda
        simp only [runPicrustLoop, List.foldl_cons]
        rw [show List.foldl (picrustIter base sample_ids) (picrustIter base sample_ids st a) l =
            runPicrustLoop base sample_ids (picrustIter base sample_ids st a) l from rfl]
        rw [runPicrustLoop_outs_not_mem base sample_ids l _ hdl]
        simp [picrustIter, alookup_cons]
  have hne : ¬ order.isEmpty := by
    cases order with
    | nil => exact absurd hd (List.not_mem_nil d)
    | cons a l => simp
  refine ⟨main order st0 hd, ?_, ?_⟩
  · rw [runPicrustLoop_t_in base sample_ids order st0, if_neg hne]
  · intro order2 hd2
    rw [main order2 st0 hd2, main order st0 hd]

/-- Witness for C8: a one-depth order over the demo table. -/
theorem C8_picrust_loop_pure_witness :
    alookup "1250".toList (runPicrustLoop demoTable (fun _ => ["s1".toList])
        ⟨demoTable, []⟩ ["1250".toList]).outs =
        some (filterSamples demoTable ((fun _ : Str => ["s1".toList]) "1250".toList)) ∧
      (runPicrustLoop demoTable (fun _ => ["s1".toList])
        ⟨demoTable, []⟩ ["1250".toList]).t_in = demoTable ∧
      ∀ order2, "1250".toList ∈ order2 →
        alookup "1250".toList (runPicrustLoop demoTable (fun _ => ["s1".toList])
            ⟨demoTable, []⟩ order2).outs =
          alookup "1250".toList (runPicrustLoop demoTable (fun _ => ["s1".toList])
            ⟨demoTable, []⟩ ["1250".toList]).outs :=
  C8_picrust_loop_pure demoTable (fun _ => ["s1".toList]) ⟨demoTable, []⟩
    ["1250".toList] "1250".toList (by decide)

/-! ### Cell 10: the table-export / taxonomy-attachment stage

```python
for depth in depths:
    old_table_fp = './02.build_package/02.rarefied/%s/deblur_125nt_0.qza' % depth
    new_table_fp = './03.packaged/%s/deblur_125nt_no_blooms_rare.biom' % (depth)
    temp_dir = './table_temp'
    !qiime tools export $old_table_fp --output-dir $temp_dir
    table_ = biom.load_table(os.path.join(temp_dir, 'feature-table.biom'), new_table_fp)
    table_.add_metadata(taxa_lookup, axis='observation')
    with biom.util.biom_open(new_table_fp, 'r'):
        table_.to_hdf5(f_, 'rarefied with taxa')
    os.removedirs(temp_dir)
```

The statement `with biom.util.biom_open(new_table_fp, 'r'):` opens the
OUTPUT path in read mode — on a run where that file has not yet been
produced, opening fails — and it has no `as f_` clause, so the name `f_`
is never bound by this cell; `table_.to_hdf5(f_, ...)` would then raise a
`NameError` on a fresh kernel.  Either way the cell raises before
`to_hdf5` can write the packaged table.  The file system is an
association list from paths to file data, and the possible binding of
`f_` from earlier execution is made explicit. -/

/-- Data stored at a path. -/
inductive FileData where
  | biomFile (t : BiomTable)
  | textFile (s : Str)
  deriving DecidableEq, Repr

/-- A file system: an association list from paths to file data. -/
abbrev FS := List (Str × FileData)

/-- `'./03.packaged/%s/deblur_125nt_no_blooms_rare.biom' % depth`. -/
def new_table_fp (depth : Str) : Str :=
  "./03.packaged/".toList ++ depth ++ "/deblur_125nt_no_blooms_rare.biom".toList

/-- `os.path.join(temp_dir, 'feature-table.biom')` for
`temp_dir = './table_temp'`. -/
def table_temp_ft : Str := "./table_temp/feature-table.biom".toList

/-- `Table.add_metadata(md, axis='observation')`: per observation ID,
replace its metadata by the looked-up entry when present. -/
def add_metadata (t : BiomTable) (lookup : List (Str × List (Str × MVal))) : BiomTable :=
  { t with obsMd := (t.obsIds.zip t.obsMd).map (fun p => (alookup p.1 lookup).getD p.2) }

/-- Evaluation of one depth of cell 10.  `taxa` is the `taxa_lookup`
mapping, `f_env` is the value (if any) the global name `f_` holds when
the cell runs (`none` on a fresh kernel — no earlier cell binds it), `fs`
is the file system, and `extracted` is the feature table the
`qiime tools export` call drops into `./table_temp`.  Returns the file
system after the cell, or the exception it raises. -/
def cell10 (taxa : List (Str × List (Str × MVal))) (f_env : Option Str) (fs : FS)
    (depth : Str) (extracted : BiomTable) : Except PyErr FS :=
  let fs1 : FS := (table_temp_ft, FileData.biomFile extracted) :: fs
  match alookup table_temp_ft fs1 with
  | none => .error (.fileNotFound table_temp_ft)
  | some (FileData.textFile _) => .error .typeError
  | some (FileData.biomFile t) =>
    let table_ := add_metadata t taxa
    match alookup (new_table_fp depth) fs1 with
    | none => .error (.fileNotFound (new_table_fp depth))
    | some _ =>
      match f_env with
      | none => .error (.nameError "f_".toList)
      | some p => .ok ((p, FileData.biomFile table_) :: fs1)

/-- The 3-feature, 2-sample rarefied table of the end-to-end scenario. -/
def demoRarefied : BiomTable :=
  { obsIds := ["F1".toList, "F2".toList, "F3".toList],
    sampleIds := ["s1".toList, "s2".toList],
    counts := [[1, 2], [3, 4], [5, 6]],
    obsMd := [[], [], []] }

/-- Matching taxonomy metadata for the three features. -/
def demoTaxa : List (Str × List (Str × MVal)) :=
  [("F1".toList, [("taxonomy".toList, MVal.mstr "k__Bacteria; p__A".toList)]),
   ("F2".toList, [("taxonomy".toList, MVal.mstr "k__Bacteria; p__B".toList)]),
   ("F3".toList, [("taxonomy".toList, MVal.mstr "k__Bacteria; p__C".toList)])]

/-- Claim C1 (code bug): the table-export stage cannot re-save the table
as HDF5 at `'./03.packaged/<depth>/deblur_125nt_no_blooms_rare.biom'`.
On a fresh run (where the output path does not yet exist and `f_` is
unbound) the 1250-depth scenario with the 3-feature/2-sample table
aborts, because `biom.util.biom_open(new_table_fp, 'r')` opens the
not-yet-written output path in read mode; and on any run where that path
does exist, the cell still raises a `NameError`, because the `with`
statement has no `as f_` clause and so `table_.to_hdf5(f_, ...)` refers
to an unbound name.  In both cases the cell raises before writing, so no
packaged table with the attached taxonomy is produced. -/
theorem C1_cell10_raises_before_write :
    cell10 demoTaxa none [] "1250".toList demoRarefied =
        .error (.fileNotFound (new_table_fp "1250".toList)) ∧
      ∀ (fs : FS) (d : FileData),
        alookup (new_table_fp "1250".toList) fs = some d →
          cell10 demoTaxa none fs "1250".toList demoRarefied =
            .error (.nameError "f_".toList) := by
  constructor
  · rfl
  · intro fs d hfs
    have hne : ¬ table_temp_ft = new_table_fp ['1', '2', '5', '0'] := by decide
    have hfs2 : alookup (new_table_fp ['1', '2', '5', '0']) fs = some d := hfs
    unfold cell10
    simp [alookup_cons, hne, hfs2]

/-- Witness for C1's second failure mode: the output path exists (left
over from an earlier run), and the cell still raises the `f_`
`NameError`. -/
theorem C1_cell10_raises_before_write_witness :
    cell10 demoTaxa none [(new_table_fp "1250".toList, FileData.textFile [])]
        "1250".toList demoRarefied = .error (.nameError "f_".toList) :=
  C1_cell10_raises_before_write.2
    [(new_table_fp "1250".toList, FileData.textFile [])] (FileData.textFile [])
    (by decide)

end AGPackage
